import Mathlib

/-!
Verification development for the IndigoGlass Nexus demand-forecasting
pipeline.  The definitions below are shallow embeddings of the Python
source:

* `promote` embeds `promote_model` (services/api/app/api/v1/endpoints/admin.py),
* `engineer_features` and its helpers embed jobs/ml/features.py
  (`add_lag_features`, `add_rolling_features`, `add_trend_features`,
  the final `dropna`),
* `prepare_train_test_split` embeds the chronological holdout split of
  jobs/ml/features.py,
* `tssFolds` embeds sklearn `TimeSeriesSplit.split` as used by
  `cross_validate_model` (jobs/ml/train.py),
* `mean_absolute_percentage_error` embeds the sklearn metric used for
  `test_mape` in `train_xgboost_model` (jobs/ml/train.py),
* `get_forecast` embeds the serving endpoint
  (services/api/app/api/v1/endpoints/forecast.py) together with
  `forecast_cache_key` (app/db/redis.py).

Machine reals (numpy float64 / pandas floats) are modelled by `Rat`;
the rolling-standard-deviation column stores the sample *variance*
(the source stores its square root, which is irrational in general;
x ↦ √x is injective on nonnegative values, so equality and
definedness of the source column coincide with those of this one).
Calendar and holiday columns of `add_date_features` /
`add_holiday_features` are total functions of the row's date (they are
never NaN in the source: the 999 fallback and the clip at 30 are always
defined), so they play no role in `dropna` and none of the claims
depends on their values; they are therefore not carried in `FeatVals`.
-/

/- ===================================================================
   Model registry and the promotion endpoint (admin.py 371-446)
   =================================================================== -/

/-- A row of the `ml_model` table (alembic 001_initial.py); only the
columns read or written by `promote_model` are carried. -/
structure MLModel where
  id : Nat
  model_name : String
  version : String
  status : String
  promoted_at : Option Nat
  promoted_by : Option String
deriving DecidableEq, Repr

/-- Errors raised by `promote_model` before any state change:
HTTP 404 (model not found) and HTTP 400 (already prod). -/
inductive PromoteError where
  | notFound
  | alreadyPromoted
deriving DecidableEq, Repr

/-- The archive UPDATE of `promote_model`: every model of the given
name currently in status prod is set to archived. -/
def promoteArchive (name : String) (x : MLModel) : MLModel :=
  if x.model_name = name ∧ x.status = "prod" then { x with status := "archived" } else x

/-- The ORM mutation of `promote_model`: the target row (identified by
its primary key) gets status prod and the promotion stamps. -/
def promoteStamp (tid : Nat) (t : Nat) (u : String) (x : MLModel) : MLModel :=
  if x.id = tid then
    { x with status := "prod", promoted_at := some t, promoted_by := some u }
  else x

/-- `promote_model` (admin.py 371-446): look the target up by
(model_name, version); 404 if absent; 400 if already prod; otherwise
archive the current prod row(s) of that name, then promote and stamp
the target.  Returns the new registry together with the target's
previous status (reported in `PromoteModelResponse`). -/
def promote (reg : List MLModel) (name v : String) (t : Nat) (u : String) :
    Except PromoteError (List MLModel × String) :=
  match reg.find? (fun m => m.model_name == name && m.version == v) with
  | none => .error .notFound
  | some m =>
    if m.status = "prod" then .error .alreadyPromoted
    else
      .ok ((reg.map (promoteArchive name)).map (promoteStamp m.id t u), m.status)

/-- One promotion request for a fixed model name. -/
structure PromoteOp where
  version : String
  time : Nat
  user : String
deriving DecidableEq, Repr

/-- The registry after one promotion request: a failed request raises
before any write, so the state is unchanged. -/
def promoteStep (name : String) (reg : List MLModel) (op : PromoteOp) : List MLModel :=
  match promote reg name op.version op.time op.user with
  | .ok (reg2, _) => reg2
  | .error _ => reg

/-- The registry after a finite sequence of promotion requests for a
fixed model name, applied sequentially. -/
def runPromotes (name : String) (reg : List MLModel) (ops : List PromoteOp) : List MLModel :=
  ops.foldl (promoteStep name) reg

/-- Number of registered models of the given name in status prod. -/
def countProd (reg : List MLModel) (name : String) : Nat :=
  reg.countP (fun m => m.model_name == name && m.status == "prod")

/- ===================================================================
   Feature engineering (jobs/ml/features.py)
   =================================================================== -/

/-- One raw sales observation: a row of the input frame of
`engineer_features` ([date, product_id, location_id, quantity]);
dates are day numbers. -/
structure Obs where
  product : Nat
  location : Nat
  date : Int
  qty : Rat
deriving DecidableEq, Repr

/-- The rows of one (product_id, location_id) group, in frame order
(`df.groupby(["product_id", "location_id"])` preserves the within-group
row order). -/
def groupRows (rows : List Obs) (p l : Nat) : List Obs :=
  rows.filter (fun o => o.product == p && o.location == l)

/-- `Series.shift(k)` evaluated at position `i` of the group series:
the value `k` rows back, NaN (`none`) for the first `k` positions. -/
def shiftAt (qs : List Rat) (k i : Nat) : Option Rat :=
  if k ≤ i then qs[i - k]? else none

/-- The non-NaN entries of the width-`w` trailing window of
`x.shift(1)` at position `i`: the last `min i w` values strictly
before position `i`. -/
def backWindow (qs : List Rat) (w i : Nat) : List Rat :=
  (qs.take i).drop (i - w)

/-- `x.shift(1).rolling(w, min_periods=1).mean()` at position `i`:
NaN when the backward window is empty (position 0). -/
def rollMeanAt (qs : List Rat) (w i : Nat) : Option Rat :=
  let win := backWindow qs w i
  if win.isEmpty then none else some (win.sum / win.length)

/-- Sample variance (pandas `std` uses `ddof=1`; the source column is
the square root of this value). -/
def sampleVar (win : List Rat) : Rat :=
  ((win.map (fun x => (x - win.sum / win.length) ^ 2)).sum) / ((win.length - 1 : Nat))

/-- `x.shift(1).rolling(w, min_periods=1).std()` after the
`fillna(0)` of `add_rolling_features`: with fewer than two points the
standard deviation is NaN and is filled with 0. -/
def rollStdAt (qs : List Rat) (w i : Nat) : Rat :=
  let win := backWindow qs w i
  if win.length < 2 then 0 else sampleVar win

/-- `x.shift(1).rolling(w, min_periods=1).min()` at position `i`. -/
def rollMinAt (qs : List Rat) (w i : Nat) : Option Rat :=
  match backWindow qs w i with
  | [] => none
  | h :: t => some (t.foldl min h)

/-- `x.shift(1).rolling(w, min_periods=1).max()` at position `i`. -/
def rollMaxAt (qs : List Rat) (w i : Nat) : Option Rat :=
  match backWindow qs w i with
  | [] => none
  | h :: t => some (t.foldl max h)

/-- `qty_wow_change = x.shift(1) - x.shift(8)` at position `i`. -/
def wowChangeAt (qs : List Rat) (i : Nat) : Option Rat :=
  match shiftAt qs 1 i, shiftAt qs 8 i with
  | some a, some b => some (a - b)
  | _, _ => none

/-- `qty_wow_pct_change = (x.shift(1) - x.shift(8)) / (x.shift(8) + 1)`
at position `i`. -/
def wowPctAt (qs : List Rat) (i : Nat) : Option Rat :=
  match shiftAt qs 1 i, shiftAt qs 8 i with
  | some a, some b => some ((a - b) / (b + 1))
  | _, _ => none

/-- `short_long_ratio = qty_rolling_mean_7d / (qty_rolling_mean_28d + 1)`
at position `i`. -/
def shortLongAt (qs : List Rat) (i : Nat) : Option Rat :=
  match rollMeanAt qs 7 i, rollMeanAt qs 28 i with
  | some a, some b => some (a / (b + 1))
  | _, _ => none

/-- The lag, rolling and trend columns of one feature row (`none` is
NaN).  `qty_rolling_std_*` carries the variance whose square root the
source stores, already filled with 0 where undefined. -/
structure FeatVals where
  qty_lag_1d : Option Rat
  qty_lag_7d : Option Rat
  qty_lag_14d : Option Rat
  qty_lag_28d : Option Rat
  qty_same_dow_1w : Option Rat
  qty_same_dow_2w : Option Rat
  qty_same_dow_4w : Option Rat
  qty_rolling_mean_7d : Option Rat
  qty_rolling_std_7d : Rat
  qty_rolling_min_7d : Option Rat
  qty_rolling_max_7d : Option Rat
  qty_rolling_mean_14d : Option Rat
  qty_rolling_std_14d : Rat
  qty_rolling_min_14d : Option Rat
  qty_rolling_max_14d : Option Rat
  qty_rolling_mean_28d : Option Rat
  qty_rolling_std_28d : Rat
  qty_rolling_min_28d : Option Rat
  qty_rolling_max_28d : Option Rat
  qty_wow_change : Option Rat
  qty_wow_pct_change : Option Rat
  short_long_rat : Option Rat
deriving DecidableEq, Repr

/-- All engineered columns of the row at position `i` of a group whose
quantity series is `qs` (`add_lag_features`, `add_rolling_features`,
`add_trend_features`; lags 1/7/14/28, same-day-of-week lags at shifts
7/14/28, windows 7/14/28). -/
def featValsAt (qs : List Rat) (i : Nat) : FeatVals where
  qty_lag_1d := shiftAt qs 1 i
  qty_lag_7d := shiftAt qs 7 i
  qty_lag_14d := shiftAt qs 14 i
  qty_lag_28d := shiftAt qs 28 i
  qty_same_dow_1w := shiftAt qs 7 i
  qty_same_dow_2w := shiftAt qs 14 i
  qty_same_dow_4w := shiftAt qs 28 i
  qty_rolling_mean_7d := rollMeanAt qs 7 i
  qty_rolling_std_7d := rollStdAt qs 7 i
  qty_rolling_min_7d := rollMinAt qs 7 i
  qty_rolling_max_7d := rollMaxAt qs 7 i
  qty_rolling_mean_14d := rollMeanAt qs 14 i
  qty_rolling_std_14d := rollStdAt qs 14 i
  qty_rolling_min_14d := rollMinAt qs 14 i
  qty_rolling_max_14d := rollMaxAt qs 14 i
  qty_rolling_mean_28d := rollMeanAt qs 28 i
  qty_rolling_std_28d := rollStdAt qs 28 i
  qty_rolling_min_28d := rollMinAt qs 28 i
  qty_rolling_max_28d := rollMaxAt qs 28 i
  qty_wow_change := wowChangeAt qs i
  qty_wow_pct_change := wowPctAt qs i
  short_long_rat := shortLongAt qs i

/-- `df.dropna()` keeps a row iff no engineered column is NaN (the
calendar/holiday columns are total and the std columns are filled). -/
def FeatVals.complete (v : FeatVals) : Bool :=
  v.qty_lag_1d.isSome && v.qty_lag_7d.isSome && v.qty_lag_14d.isSome &&
  v.qty_lag_28d.isSome && v.qty_same_dow_1w.isSome && v.qty_same_dow_2w.isSome &&
  v.qty_same_dow_4w.isSome && v.qty_rolling_mean_7d.isSome &&
  v.qty_rolling_min_7d.isSome && v.qty_rolling_max_7d.isSome &&
  v.qty_rolling_mean_14d.isSome && v.qty_rolling_min_14d.isSome &&
  v.qty_rolling_max_14d.isSome && v.qty_rolling_mean_28d.isSome &&
  v.qty_rolling_min_28d.isSome && v.qty_rolling_max_28d.isSome &&
  v.qty_wow_change.isSome && v.qty_wow_pct_change.isSome &&
  v.short_long_rat.isSome

/-- One row of the engineered frame: key columns plus the engineered
feature columns. -/
structure FeatRow where
  date : Int
  product : Nat
  location : Nat
  quantity : Rat
  vals : FeatVals
deriving DecidableEq, Repr

/-- Placeholder observation for the (never taken) out-of-range branch
of a positional lookup. -/
def obsDefault : Obs := ⟨0, 0, 0, 0⟩

/-- The engineered row built from frame row `j` (holding observation
`o`): its features are computed inside `o`'s group at the group
position of row `j` (`groupby` keeps within-group frame order). -/
def featRowAt (rows : List Obs) (j : Nat) (o : Obs) : FeatRow where
  date := o.date
  product := o.product
  location := o.location
  quantity := o.qty
  vals := featValsAt ((groupRows rows o.product o.location).map Obs.qty)
                     (groupRows (rows.take j) o.product o.location).length

/-- `engineer_features` (features.py 19-55): every input row gets its
lag/rolling/trend columns computed per group, then `dropna` removes the
rows with insufficient history. -/
def engineer_features (rows : List Obs) : List FeatRow :=
  ((List.range rows.length).map (fun j => featRowAt rows j (rows.getD j obsDefault))).filter
    (fun r => r.vals.complete)

/- ===================================================================
   Chronological holdout split (features.py 225-260)
   =================================================================== -/

/-- `df["date"].max()` (0 for the empty frame, where the source yields
NaT; no claim touches that case). -/
def maxDate (df : List FeatRow) : Int :=
  match df with
  | [] => 0
  | h :: t => t.foldl (fun acc r => max acc r.date) h.date

/-- `prepare_train_test_split` (features.py 225-260): sort by date,
cutoff = max(date) − test_days, train = rows with date ≤ cutoff, test =
rows with date > cutoff.  The `X`/`y` outputs are column projections of
these two row lists; no emptiness check of any kind is performed. -/
def prepare_train_test_split (df : List FeatRow) (test_days : Int) :
    List FeatRow × List FeatRow :=
  let sorted := List.insertionSort (fun a b => a.date ≤ b.date) df
  let cutoff := maxDate df - test_days
  (sorted.filter (fun r => r.date ≤ cutoff), sorted.filter (fun r => cutoff < r.date))

/- ===================================================================
   Walk-forward cross-validation (train.py 169-226)
   =================================================================== -/

/-- sklearn `TimeSeriesSplit(n_splits).split` on `n` samples with the
default `test_size = n // (n_splits + 1)`, `gap = 0`: fold `i` is
(test_start, test_size) with train indices `[0, test_start)` and
validation indices `[test_start, test_start + test_size)`;
`none` models the `ValueError` raised for too few samples. -/
def tssFolds (n_splits n : Nat) : Option (List (Nat × Nat)) :=
  let test_size := n / (n_splits + 1)
  if n_splits + 1 > n then none
  else if n ≤ n_splits * test_size then none
  else some ((List.range n_splits).map (fun i => (n - n_splits * test_size + i * test_size, test_size)))

/- ===================================================================
   MAPE (train.py 149-156)
   =================================================================== -/

/-- `np.finfo(np.float64).eps`, the clamp used by sklearn's MAPE. -/
def epsFloat : Rat := 1 / 2 ^ 52

/-- sklearn `mean_absolute_percentage_error` as called for `test_mape`:
the mean over ALL rows of `|y_true - y_pred| / max(eps, |y_true|)`. -/
def mean_absolute_percentage_error (y_true y_pred : List Rat) : Rat :=
  (((y_true.zip y_pred).map (fun ab => |ab.1 - ab.2| / max epsFloat |ab.1|)).sum) /
    ((y_true.zip y_pred).length)

/-- Modelled from the spec: MAPE as the mean of
`|y_pred − y_true| / y_true` restricted to rows with `y_true ≠ 0`
(spec section 4.2); stated for comparison with the sklearn metric the
code computes. -/
def mapeSpecNonzero (y_true y_pred : List Rat) : Rat :=
  let nz := (y_true.zip y_pred).filter (fun ab => decide (ab.1 ≠ 0))
  ((nz.map (fun ab => |ab.2 - ab.1| / ab.1)).sum) / (nz.length)

/- ===================================================================
   Forecast serving (forecast.py) and the Redis cache (redis.py)
   =================================================================== -/

/-- `dim_product` row (the columns `get_forecast` reads). -/
structure DimProduct where
  sku : String
  product_id : Nat
deriving DecidableEq, Repr

/-- `dim_location` row (the columns `get_forecast` reads). -/
structure DimLocation where
  region : String
  location_id : Nat
deriving DecidableEq, Repr

/-- `ml_model_assignment` row. -/
structure ModelAssignment where
  product_id : Nat
  location_id : Nat
  model_id : Nat
deriving DecidableEq, Repr

/-- `fact_forecast` row joined with `dim_date` (dates as integer
`YYYYMMDD`-style keys, matching the `date_key` comparisons). -/
structure FactForecast where
  date_key : Nat
  product_id : Nat
  location_id : Nat
  model_version : String
  forecast_units : Int
  interval_low : Int
  interval_high : Int
deriving DecidableEq, Repr

/-- `fact_sales` row joined with `dim_date`. -/
structure FactSale where
  date_key : Nat
  product_id : Nat
  location_id : Nat
  units_sold : Int
deriving DecidableEq, Repr

/-- The relational state `get_forecast` reads. -/
structure Db where
  products : List DimProduct
  locations : List DimLocation
  assignments : List ModelAssignment
  models : List MLModel
  forecasts : List FactForecast
  sales : List FactSale
deriving DecidableEq, Repr

/-- One `ForecastPoint` of the response schema. -/
structure ForecastPoint where
  date_key : Nat
  forecast_units : Int
  interval_low : Int
  interval_high : Int
  actual_units : Option Int
deriving DecidableEq, Repr

/-- The `ForecastResponse` schema (the `metrics` JSON blob is not
modelled; no claim reads it). -/
structure ForecastResponse where
  sku : String
  region : String
  model_version : String
  model_name : String
  forecasts : List ForecastPoint
deriving DecidableEq, Repr

/-- Errors `get_forecast` raises: HTTP 404 for an unknown SKU or an
empty region. -/
inductive ApiError where
  | productNotFound
  | locationNotFound
deriving DecidableEq, Repr

/-- The Redis cache, as a key-value association list; a fresh `SET`
shadows any older entry. -/
def Cache := List (String × ForecastResponse)
deriving DecidableEq

/-- `cache_get` (redis.py). -/
def cache_get (c : Cache) (k : String) : Option ForecastResponse :=
  (List.find? (fun e => e.1 == k) c).map (fun e => e.2)

/-- `cache_set` (redis.py). -/
def cache_set (c : Cache) (k : String) (v : ForecastResponse) : Cache :=
  (k, v) :: c

/-- `forecast_cache_key` (redis.py 137-139): built from sku, region and
one date string only. -/
def forecast_cache_key (sku region date : String) : String :=
  "forecast:" ++ sku ++ ":" ++ region ++ ":" ++ date

/-- The empty response `get_forecast` returns when no assignment
resolves for the pair. -/
def emptyForecastResponse (sku region : String) : ForecastResponse :=
  ⟨sku, region, "none", "No model assigned", []⟩

/-- The assignment lookup of `get_forecast` (forecast.py 148-171): the
join of `ml_model_assignment` with `ml_model` filtered on the pair AND
on `MLModel.status == "prod"`; `.first()` takes the first joined row. -/
def resolveAssignment (db : Db) (pid lid : Nat) : Option (ModelAssignment × MLModel) :=
  (db.assignments.filterMap (fun a =>
    if a.product_id == pid && a.location_id == lid then
      (db.models.find? (fun m => m.id == a.model_id && m.status == "prod")).map
        (fun m => (a, m))
    else none)).head?

/-- `get_forecast` (forecast.py): check the cache (keyed on sku, region
and the END date only); resolve product and location (404 else);
resolve the pair's assignment joined on prod status (empty response,
with no cache write, when none); read the forecast rows of the
resolved model's version in [start_key, end_key]; optionally merge the
actuals; cache the response under the same key and return it. -/
def get_forecast (db : Db) (c : Cache) (sku region : String)
    (start_key end_key : Nat) (include_actuals : Bool) :
    Except ApiError (ForecastResponse × Cache) :=
  let key := forecast_cache_key sku region (toString end_key)
  match cache_get c key with
  | some r => .ok (r, c)
  | none =>
    match db.products.find? (fun p => p.sku == sku) with
    | none => .error .productNotFound
    | some product =>
      match db.locations.find? (fun l => l.region == region) with
      | none => .error .locationNotFound
      | some location =>
        match resolveAssignment db product.product_id location.location_id with
        | none => .ok (emptyForecastResponse sku region, c)
        | some am =>
          let rows := db.forecasts.filter (fun f =>
            f.product_id == product.product_id && f.location_id == location.location_id &&
            f.model_version == am.2.version &&
            (start_key ≤ f.date_key && f.date_key ≤ end_key))
          let points := rows.map (fun f =>
            ForecastPoint.mk f.date_key f.forecast_units f.interval_low f.interval_high none)
          let points2 := if include_actuals then
              points.map (fun pt =>
                match db.sales.find? (fun s =>
                    s.product_id == product.product_id &&
                    s.location_id == location.location_id &&
                    s.date_key == pt.date_key &&
                    (start_key ≤ s.date_key && s.date_key ≤ end_key)) with
                | some s => { pt with actual_units := some s.units_sold }
                | none => pt)
            else points
          let resp : ForecastResponse := ⟨sku, region, am.2.version, am.2.model_name, points2⟩
          .ok (resp, cache_set c key resp)

/- ===================================================================
   Concrete scenarios used by witnesses and counterexamples
   =================================================================== -/

/-- The spec's scenario input: one (product, location) pair, 40
consecutive days, quantities 100, 105, ... -/
def scenarioRows : List Obs :=
  (List.range 40).map (fun k => ⟨1, 1, (k : Int), (100 : Rat) + 5 * k⟩)

/-- A single engineered row (first row of a fresh series: every lag and
rolling column NaN except the filled stds). -/
def rowSingle : FeatRow := ⟨100, 1, 1, 9, featValsAt [] 0⟩

/-- Ten chronologically sorted rows from two groups sharing each date
(dates 1..5 twice). -/
def datesW : List Int := [1, 1, 2, 2, 3, 3, 4, 4, 5, 5]

/-- A database whose only assignment points at an archived model, with
a forecast row of that model's version inside the queried range. -/
def dbArchived : Db where
  products := [⟨"S", 1⟩]
  locations := [⟨"R", 1⟩]
  assignments := [⟨1, 1, 5⟩]
  models := [⟨5, "demand_forecast", "v1", "archived", none, none⟩]
  forecasts := [⟨15, 1, 1, "v1", 42, 30, 50⟩]
  sales := []

/-- A database with a product and a location but no assignment for the
pair at all. -/
def dbNoAssign : Db where
  products := [⟨"S", 1⟩]
  locations := [⟨"R", 1⟩]
  assignments := []
  models := [⟨5, "demand_forecast", "v1", "prod", none, none⟩]
  forecasts := [⟨15, 1, 1, "v1", 42, 30, 50⟩]
  sales := []

/-- A database where the pair's assignment resolves to a prod model,
with two forecast rows of its version. -/
def dbProd : Db where
  products := [⟨"S", 1⟩]
  locations := [⟨"R", 1⟩]
  assignments := [⟨1, 1, 5⟩]
  models := [⟨5, "demand_forecast", "v1", "prod", none, none⟩]
  forecasts := [⟨15, 1, 1, "v1", 42, 30, 50⟩, ⟨12, 1, 1, "v1", 41, 30, 50⟩]
  sales := [⟨15, 1, 1, 40⟩]

/-- 29 observations of one group on consecutive days 0..28. -/
def obsW : List Obs :=
  (List.range 29).map (fun k => ⟨1, 1, (k : Int), (7 : Rat)⟩)

/-- `obsW` with one extra observation appended at the much later
date 99: the history strictly before day 28 is unchanged. -/
def obsW2 : List Obs := obsW ++ [⟨1, 1, 99, 3⟩]

/-- A two-model registry: one prod, one staged, for the same name. -/
def regW : List MLModel :=
  [⟨1, "demand_forecast", "v1", "prod", some 1, some "alice"⟩,
   ⟨2, "demand_forecast", "v2", "staged", none, none⟩]

/- ===================================================================
   Helper lemmas
   =================================================================== -/

theorem length_filter_add_length_filter_not {α : Type} (l : List α) (p : α → Bool) :
    (l.filter p).length + (l.filter (fun a => !(p a))).length = l.length := by
  induction l with
  | nil => simp
  | cons h t ih =>
    by_cases hp : p h = true <;>
      simp [List.filter_cons, hp] <;> omega

/- ===================================================================
   C3: the holdout split and the missing emptiness check
   =================================================================== -/

/-- C3 (counterexample): on a one-row frame with `test_days = 14` the
training partition comes back empty and no error of any kind is
raised — `prepare_train_test_split` returns the pair of partitions
unconditionally, refuting the claim that an empty partition yields
`InsufficientDataError`. -/
theorem c3_split_counterexample :
    prepare_train_test_split [rowSingle] 14 = ([], [rowSingle]) := by decide

/-- C3 (amended): `prepare_train_test_split` performs no emptiness
check: it always returns the two chronological partitions (train =
rows dated at most `max(date) − test_days`, test = the strictly later
rows, together exhausting the frame), returning an empty partition
as-is instead of failing; no `InsufficientDataError` exists in the
code. -/
theorem c3_split_partitions (df : List FeatRow) (d : Int) :
    (prepare_train_test_split df d).1.length + (prepare_train_test_split df d).2.length
        = df.length ∧
    (∀ r ∈ (prepare_train_test_split df d).1, r.date ≤ maxDate df - d) ∧
    (∀ r ∈ (prepare_train_test_split df d).2, maxDate df - d < r.date) := by
  unfold prepare_train_test_split
  refine ⟨?_, ?_, ?_⟩
  · have hperm := (List.perm_insertionSort (fun a b : FeatRow => a.date ≤ b.date) df).length_eq
    rw [← hperm]
    have hpt : ∀ r : FeatRow, (decide (maxDate df - d < r.date))
        = !(decide (r.date ≤ maxDate df - d)) := by
      intro r
      rw [← decide_not]
      exact decide_eq_decide.mpr (not_le).symm
    calc (List.filter (fun r => decide (r.date ≤ maxDate df - d))
            (List.insertionSort (fun a b : FeatRow => a.date ≤ b.date) df)).length +
          (List.filter (fun r => decide (maxDate df - d < r.date))
            (List.insertionSort (fun a b : FeatRow => a.date ≤ b.date) df)).length
        = (List.filter (fun r => decide (r.date ≤ maxDate df - d))
            (List.insertionSort (fun a b : FeatRow => a.date ≤ b.date) df)).length +
          (List.filter (fun r => !(decide (r.date ≤ maxDate df - d)))
            (List.insertionSort (fun a b : FeatRow => a.date ≤ b.date) df)).length := by
          simp only [hpt]
      _ = _ := length_filter_add_length_filter_not _ _
  · intro r hr
    simpa using (List.mem_filter.mp hr).2
  · intro r hr
    simpa using (List.mem_filter.mp hr).2

/- ===================================================================
   C4: the 40-day scenario
   =================================================================== -/

/-- C4 (counterexample): on the spec's 40-day scenario with
`test_days = 14`, the training partition has 0 rows, not 12 — the 12
usable rows (dates 28..39) all lie strictly after the cutoff
`39 − 14 = 25`, so they all land in the test partition, which
therefore spans 12 days, not 14. -/
theorem c4_scenario_counterexample :
    ¬((prepare_train_test_split (engineer_features scenarioRows) 14).1.length = 12) ∧
    (prepare_train_test_split (engineer_features scenarioRows) 14).1.length = 0 := by
  decide

/-- C4 (amended): the scenario yields exactly 12 usable engineered
rows (the first 28 days are dropped for the 28-day lag), all with
dates 28..39 and with no NaN feature value; the 14-day holdout split
then returns an empty training set and places all 12 rows, spanning
the last 12 days, in the test set. -/
theorem c4_scenario_split :
    (engineer_features scenarioRows).length = 12 ∧
    (engineer_features scenarioRows).map (fun r => r.date)
        = (List.range 12).map (fun k => (k : Int) + 28) ∧
    (engineer_features scenarioRows).all (fun r => r.vals.complete) = true ∧
    (prepare_train_test_split (engineer_features scenarioRows) 14).1 = [] ∧
    ((prepare_train_test_split (engineer_features scenarioRows) 14).2.map (fun r => r.date))
        = (List.range 12).map (fun k => (k : Int) + 28) := by
  decide

/- ===================================================================
   C8: walk-forward cross-validation fold boundaries
   =================================================================== -/

/-- C8 (counterexample): `cross_validate_model` folds by row position
(sklearn `TimeSeriesSplit`), not by date.  On 10 chronologically
sorted rows from two groups sharing each date, the default 5 splits
give fold (test_start 5, size 1): its training block contains row 4
with date 3 while its validation row 5 also has date 3, so
max(train_dates) < min(val_dates) fails. -/
theorem c8_fold_counterexample :
    tssFolds 5 datesW.length = some [(5, 1), (6, 1), (7, 1), (8, 1), (9, 1)] ∧
    datesW.Sorted (· ≤ ·) ∧
    datesW.getD 4 0 = 3 ∧ datesW.getD 5 0 = 3 ∧
    ¬(datesW.getD 4 0 < datesW.getD 5 0) := by
  decide

/-- C8 (amended): every fold produced by the row-positional
`TimeSeriesSplit` trains only on rows positioned strictly before its
validation rows, so on a date-sorted dataset every training date is
at most (≤, not <) every validation date of the fold; the strict
inequality max(train_dates) < min(val_dates) holds whenever the row
dates are strictly increasing (no two rows share a date), but can
fail at a fold boundary inside a run of equal dates. -/
theorem c8_fold_train_dates_le_val (dates : List Int) (k : Nat) (folds : List (Nat × Nat))
    (_hf : tssFolds k dates.length = some folds)
    (hsorted : dates.Sorted (· ≤ ·)) :
    (∀ f ∈ folds, ∀ a b : Nat, a < f.1 → f.1 ≤ b → b < f.1 + f.2 →
      ∀ (ha : a < dates.length) (hb : b < dates.length),
        dates.get ⟨a, ha⟩ ≤ dates.get ⟨b, hb⟩) ∧
    (dates.Sorted (· < ·) →
      ∀ f ∈ folds, ∀ a b : Nat, a < f.1 → f.1 ≤ b → b < f.1 + f.2 →
      ∀ (ha : a < dates.length) (hb : b < dates.length),
        dates.get ⟨a, ha⟩ < dates.get ⟨b, hb⟩) := by
  constructor
  · intro f _hm a b hab hfb _hbe ha hb
    have h := List.pairwise_iff_get.mp hsorted
    exact h ⟨a, ha⟩ ⟨b, hb⟩ (Fin.mk_lt_mk.mpr (lt_of_lt_of_le hab hfb))
  · intro hstrict f _hm a b hab hfb _hbe ha hb
    have h := List.pairwise_iff_get.mp hstrict
    exact h ⟨a, ha⟩ ⟨b, hb⟩ (Fin.mk_lt_mk.mpr (lt_of_lt_of_le hab hfb))

/- ===================================================================
   C9: the reported test MAPE
   =================================================================== -/

/-- C9 (counterexample): with test labels [0, 1] and predictions
[1, 1], the metric the code computes (sklearn
`mean_absolute_percentage_error`, which clamps the denominator at
eps = 2⁻⁵²) equals 2⁵¹, while the claimed restricted mean over the
nonzero-label rows equals 0: the zero-label row contributes
|y_pred|/eps, not nothing. -/
theorem c9_mape_counterexample :
    mean_absolute_percentage_error [0, 1] [1, 1] ≠ mapeSpecNonzero [0, 1] [1, 1] := by
  simp only [mean_absolute_percentage_error, mapeSpecNonzero, epsFloat, List.zip,
    List.zipWith, List.filter, List.map, List.sum_cons, List.sum_nil, List.length]
  norm_num

/-- C9 (amended): the reported test MAPE is sklearn's
eps-clamped mean over ALL test rows, `mean of
|y_true − y_pred| / max(eps, |y_true|)`; it coincides with the claimed
restricted mean exactly on test sets whose every label is at least
eps — in particular rows with `y_true = 0` do contribute, with weight
`|y_pred| / eps`. -/
theorem c9_mape_eq_restricted_of_labels_ge_eps (yt yp : List Rat)
    (h : ∀ y ∈ yt, epsFloat ≤ y) :
    mean_absolute_percentage_error yt yp = mapeSpecNonzero yt yp := by
  unfold mean_absolute_percentage_error mapeSpecNonzero
  have hfl : (yt.zip yp).filter (fun ab => decide (ab.1 ≠ 0)) = yt.zip yp := by
    rw [List.filter_eq_self]
    intro ab hab
    rcases ab with ⟨a, b⟩
    have ha : epsFloat ≤ a := h _ (List.of_mem_zip hab).1
    have hapos : (0 : Rat) < a := lt_of_lt_of_le (by norm_num [epsFloat]) ha
    simpa using ne_of_gt hapos
  rw [hfl]
  congr 1
  refine congrArg List.sum (List.map_congr_left ?_)
  intro ab hab
  rcases ab with ⟨a, b⟩
  have ha : epsFloat ≤ a := h _ (List.of_mem_zip hab).1
  have hapos : (0 : Rat) < a := lt_of_lt_of_le (by norm_num [epsFloat]) ha
  have habs : |a| = a := abs_of_pos hapos
  rw [abs_sub_comm, max_eq_right (by rw [habs]; exact ha), habs]

/-- C9 witness: at labels [1, 2] (both at least eps) the theorem
applies and the two definitions agree. -/
theorem c9_mape_witness :
    mean_absolute_percentage_error [1, 2] [3, 4] = mapeSpecNonzero [1, 2] [3, 4] :=
  c9_mape_eq_restricted_of_labels_ge_eps [1, 2] [3, 4] (by
    intro y hy
    rcases List.mem_pair.mp hy with h | h <;> rw [h] <;> norm_num [epsFloat])

/-- C8 witness: on six strictly increasing dates the 5-split folds are
(1,1)..(5,1) and the first fold's training row 0 is dated no later
than its validation row 1. -/
theorem c8_fold_witness :
    List.get ([1, 2, 3, 4, 5, 6] : List Int) ⟨0, by decide⟩
      ≤ List.get ([1, 2, 3, 4, 5, 6] : List Int) ⟨1, by decide⟩ :=
  (c8_fold_train_dates_le_val [1, 2, 3, 4, 5, 6] 5 [(1, 1), (2, 1), (3, 1), (4, 1), (5, 1)]
      (by decide) (by decide)).1
    (1, 1) (by decide) 0 1 (by decide) (by decide) (by decide) (by decide) (by decide)

/- ===================================================================
   C5: assignments pointing at non-prod models
   =================================================================== -/

/-- C5 (counterexample): in `dbArchived` the pair (product 1,
location 1) has an explicit assignment to model 5, whose status is
archived, and a forecast row of that model's version lies inside the
queried range — yet `get_forecast` returns the empty response: the
assignment join filters on `MLModel.status == "prod"`, so an
assignment to an archived model is NOT honored. -/
theorem c5_archived_assignment_counterexample :
    dbArchived.assignments = [⟨1, 1, 5⟩] ∧
    (∃ m ∈ dbArchived.models, m.id = 5 ∧ m.status = "archived") ∧
    (∃ f ∈ dbArchived.forecasts, f.model_version = "v1" ∧ 10 ≤ f.date_key ∧ f.date_key ≤ 20) ∧
    get_forecast dbArchived [] "S" "R" 10 20 true
      = .ok (emptyForecastResponse "S" "R", []) := by
  refine ⟨rfl, ⟨⟨5, "demand_forecast", "v1", "archived", none, none⟩, by decide⟩,
    ⟨⟨15, 1, 1, "v1", 42, 30, 50⟩, by decide⟩, rfl⟩

/-- C5 (amended): the serving path honors an explicit assignment only
when the assigned model currently has status prod: whenever every
model referenced by the pair's assignments has a status other than
prod (e.g. the assignment points at an archived model), `get_forecast`
returns the defined empty response — model_version "none", no
forecast rows — and writes nothing to the cache. -/
theorem c5_assignment_requires_prod (db : Db) (c : Cache) (sku region : String)
    (sk ek : Nat) (inc : Bool) (product : DimProduct) (location : DimLocation)
    (hc : cache_get c (forecast_cache_key sku region (toString ek)) = none)
    (hp : db.products.find? (fun p => p.sku == sku) = some product)
    (hl : db.locations.find? (fun l => l.region == region) = some location)
    (hnp : ∀ a ∈ db.assignments, a.product_id = product.product_id →
      a.location_id = location.location_id →
      ∀ m ∈ db.models, m.id = a.model_id → m.status ≠ "prod") :
    get_forecast db c sku region sk ek inc = .ok (emptyForecastResponse sku region, c) := by
  have hres : resolveAssignment db product.product_id location.location_id = none := by
    unfold resolveAssignment
    have hnil : db.assignments.filterMap (fun a =>
        if a.product_id == product.product_id && a.location_id == location.location_id then
          (db.models.find? (fun m => m.id == a.model_id && m.status == "prod")).map
            (fun m => (a, m))
        else none) = [] := by
      rw [List.filterMap_eq_nil_iff]
      intro a ha
      by_cases hkey : a.product_id == product.product_id
          && a.location_id == location.location_id
      · rw [if_pos hkey]
        have hfind : db.models.find? (fun m => m.id == a.model_id && m.status == "prod")
            = none := by
          rw [List.find?_eq_none]
          intro m hm hpred
          have h1 := (Bool.and_eq_true _ _).mp hpred
          have h2 := (Bool.and_eq_true _ _).mp hkey
          exact hnp a ha (by simpa using h2.1) (by simpa using h2.2) m hm
            (by simpa using h1.1) (by simpa using h1.2)
        rw [hfind]
        rfl
      · rw [if_neg hkey]
    rw [hnil]
    rfl
  unfold get_forecast
  simp only [hc, hp, hl, hres]

/-- C5 witness: in `dbArchived` (one assignment, pointing at an
archived model) the amended theorem applies and yields the empty
response on the empty cache. -/
theorem c5_assignment_requires_prod_witness :
    get_forecast dbArchived [] "S" "R" 10 20 true
      = .ok (emptyForecastResponse "S" "R", []) :=
  c5_assignment_requires_prod dbArchived [] "S" "R" 10 20 true ⟨"S", 1⟩ ⟨"R", 1⟩
    rfl rfl rfl (by decide)

/- ===================================================================
   C7: pairs with no assignment
   =================================================================== -/

/-- C7: for a pair whose product and location exist but which has no
Model Assignment row at all, `get_forecast` returns the defined empty
result — the `ForecastResponse` with an empty forecast list and the
placeholder model fields — raising no error and consulting no default
model (the response is independent of every model in the registry). -/
theorem c7_unassigned_pair_empty (db : Db) (c : Cache) (sku region : String)
    (sk ek : Nat) (inc : Bool) (product : DimProduct) (location : DimLocation)
    (hc : cache_get c (forecast_cache_key sku region (toString ek)) = none)
    (hp : db.products.find? (fun p => p.sku == sku) = some product)
    (hl : db.locations.find? (fun l => l.region == region) = some location)
    (hna : ∀ a ∈ db.assignments,
      ¬(a.product_id = product.product_id ∧ a.location_id = location.location_id)) :
    get_forecast db c sku region sk ek inc = .ok (emptyForecastResponse sku region, c) ∧
    (emptyForecastResponse sku region).forecasts = [] := by
  refine ⟨?_, rfl⟩
  exact c5_assignment_requires_prod db c sku region sk ek inc product location hc hp hl
    (fun a ha h1 h2 => absurd ⟨h1, h2⟩ (hna a ha))

/-- C7 witness: in `dbNoAssign` (no assignment rows at all) the
endpoint returns the empty response on the empty cache. -/
theorem c7_unassigned_pair_empty_witness :
    get_forecast dbNoAssign [] "S" "R" 10 20 true
      = .ok (emptyForecastResponse "S" "R", []) :=
  (c7_unassigned_pair_empty dbNoAssign [] "S" "R" 10 20 true ⟨"S", 1⟩ ⟨"R", 1⟩
    rfl rfl rfl (by intro a ha; simp [dbNoAssign] at ha)).1

/- ===================================================================
   C10: the forecast cache key ignores start_date
   =================================================================== -/

/-- C10: `forecast_cache_key` is built from sku, region and the end
date only, so two `get_forecast` calls with equal sku, region and
end date hit the same cache entry whatever their start dates: if the
first call (on a cache without the entry) computed and cached a
response, a second call with ANY start date (and any
include_actuals flag) while that entry is live returns the first
call's response verbatim — its rows reflect the first call's start
date, not the second's. -/
theorem c10_cache_ignores_start (db : Db) (c : Cache) (sku region : String)
    (sk1 sk2 ek : Nat) (inc1 inc2 : Bool) (resp : ForecastResponse) (c2 : Cache)
    (h0 : cache_get c (forecast_cache_key sku region (toString ek)) = none)
    (h1 : get_forecast db c sku region sk1 ek inc1 = .ok (resp, c2))
    (h2 : c2 ≠ c) :
    forecast_cache_key sku region (toString ek) = forecast_cache_key sku region (toString ek) ∧
    get_forecast db c2 sku region sk2 ek inc2 = .ok (resp, c2) := by
  refine ⟨rfl, ?_⟩
  have hc2 : c2 = cache_set c (forecast_cache_key sku region (toString ek)) resp := by
    unfold get_forecast at h1
    simp only [h0] at h1
    rcases hp : db.products.find? (fun p => p.sku == sku) with _ | product
    · simp [hp] at h1
    simp only [hp] at h1
    rcases hl : db.locations.find? (fun l => l.region == region) with _ | location
    · simp [hl] at h1
    simp only [hl] at h1
    rcases hr : resolveAssignment db product.product_id location.location_id with _ | am
    · simp only [hr, Except.ok.injEq, Prod.mk.injEq] at h1
      exact absurd h1.2.symm h2
    · simp only [hr, Except.ok.injEq, Prod.mk.injEq] at h1
      rw [← h1.1, ← h1.2]
  have hget : cache_get c2 (forecast_cache_key sku region (toString ek)) = some resp := by
    rw [hc2]
    unfold cache_get cache_set
    simp
  unfold get_forecast
  simp only [hget]

/-- C10 witness: in `dbProd` the first call with range [13, 20] caches
a one-row response under the key built from sku, region and end date
20; a second call with the different start date 10 (which would match
a second forecast row at date 12) and a different include_actuals flag
returns the first call's cached response unchanged. -/
theorem c10_cache_ignores_start_witness :
    get_forecast dbProd
      [("forecast:S:R:20",
        ⟨"S", "R", "v1", "demand_forecast", [⟨15, 42, 30, 50, some 40⟩]⟩)]
      "S" "R" 10 20 false
    = .ok (⟨"S", "R", "v1", "demand_forecast", [⟨15, 42, 30, 50, some 40⟩]⟩,
      [("forecast:S:R:20",
        ⟨"S", "R", "v1", "demand_forecast", [⟨15, 42, 30, 50, some 40⟩]⟩)]) :=
  (c10_cache_ignores_start dbProd [] "S" "R" 13 10 20 true false
    ⟨"S", "R", "v1", "demand_forecast", [⟨15, 42, 30, 50, some 40⟩]⟩
    [("forecast:S:R:20",
      ⟨"S", "R", "v1", "demand_forecast", [⟨15, 42, 30, 50, some 40⟩]⟩)]
    rfl rfl (by decide)).2

/- ===================================================================
   C6: promotion failure modes leave the registry unchanged
   =================================================================== -/

theorem promoteArchive_fields (name : String) (x : MLModel) :
    (promoteArchive name x).id = x.id ∧ (promoteArchive name x).model_name = x.model_name ∧
    (promoteArchive name x).version = x.version := by
  unfold promoteArchive; split <;> simp

theorem promoteStamp_fields (tid t : Nat) (u : String) (x : MLModel) :
    (promoteStamp tid t u x).id = x.id ∧ (promoteStamp tid t u x).model_name = x.model_name ∧
    (promoteStamp tid t u x).version = x.version := by
  unfold promoteStamp; split <;> simp

/-- The key predicate of the promotion lookup is untouched by both
update passes. -/
theorem keyPred_comp (name v : String) (tid t : Nat) (u : String) :
    ((fun m : MLModel => m.model_name == name && m.version == v) ∘
      (promoteStamp tid t u ∘ promoteArchive name))
      = (fun m : MLModel => m.model_name == name && m.version == v) := by
  funext x
  simp only [Function.comp_apply, (promoteStamp_fields tid t u _).2.1,
    (promoteStamp_fields tid t u _).2.2, (promoteArchive_fields name x).2.1,
    (promoteArchive_fields name x).2.2]

/-- Successful promotion characterized: the lookup found a non-prod
target and the new registry is the two update passes applied in
order. -/
theorem promote_ok_iff (reg : List MLModel) (name v : String) (t : Nat) (u : String)
    (reg2 : List MLModel) (prev : String) :
    promote reg name v t u = .ok (reg2, prev) ↔
      ∃ m, reg.find? (fun x => x.model_name == name && x.version == v) = some m ∧
        m.status ≠ "prod" ∧ prev = m.status ∧
        reg2 = (reg.map (promoteArchive name)).map (promoteStamp m.id t u) := by
  unfold promote
  rcases hf : reg.find? (fun x => x.model_name == name && x.version == v) with _ | m
  · simp [hf]
  · by_cases hst : m.status = "prod"
    · simp [hf, hst]
    · simp only [hf, if_neg hst, Except.ok.injEq, Prod.mk.injEq, Option.some.injEq]
      constructor
      · rintro ⟨h1, h2⟩; exact ⟨m, rfl, hst, h2.symm, h1.symm⟩
      · rintro ⟨m2, rfl, _, hprev, hr⟩
        exact ⟨hr.symm, hprev.symm⟩

/-- C6: `promote(model_name, version)` fails with the not-found error
when no model with that (model_name, version) pair exists, and with
the already-promoted error when the target is already prod; every
failure raises before any write, so the registry is unchanged; and a
successful promotion immediately followed by a second promotion of the
same version fails with the already-promoted error. -/
theorem c6_promote_failure_modes (reg : List MLModel) (name v : String) (t : Nat) (u : String) :
    ((∀ m ∈ reg, ¬(m.model_name = name ∧ m.version = v)) →
        promote reg name v t u = .error .notFound) ∧
    (∀ m, reg.find? (fun x => x.model_name == name && x.version == v) = some m →
        m.status = "prod" → promote reg name v t u = .error .alreadyPromoted) ∧
    (∀ e, promote reg name v t u = .error e → promoteStep name reg ⟨v, t, u⟩ = reg) ∧
    (∀ reg2 prev, promote reg name v t u = .ok (reg2, prev) →
        ∀ t2 u2, promote reg2 name v t2 u2 = .error .alreadyPromoted) := by
  refine ⟨?_, ?_, ?_, ?_⟩
  · intro h
    have hnone : reg.find? (fun x => x.model_name == name && x.version == v) = none := by
      rw [List.find?_eq_none]
      intro m hm hpred
      rw [Bool.and_eq_true, beq_iff_eq, beq_iff_eq] at hpred
      exact h m hm hpred
    unfold promote
    simp only [hnone]
  · intro m hm hst
    unfold promote
    simp only [hm, if_pos hst]
  · intro e he
    unfold promoteStep
    rw [he]
  · intro reg2 prev hok t2 u2
    obtain ⟨m, hfind, hst, _, hreg2⟩ := (promote_ok_iff reg name v t u reg2 prev).mp hok
    have harch : promoteArchive name m = m := by
      unfold promoteArchive
      rw [if_neg]
      rintro ⟨_, h⟩
      exact hst h
    have hstamp : (promoteStamp m.id t u m).status = "prod" := by
      unfold promoteStamp
      rw [if_pos rfl]
    have hfind2 : reg2.find? (fun x => x.model_name == name && x.version == v)
        = some (promoteStamp m.id t u (promoteArchive name m)) := by
      rw [hreg2, List.map_map, List.find?_map, keyPred_comp, hfind]
      rfl
    unfold promote
    simp only [hfind2]
    rw [harch, if_pos hstamp]

/-- C6 witness: in the two-model registry `regW`, promoting the
unknown version "v9" fails not-found, and promoting "v1" (already
prod) fails already-promoted. -/
theorem c6_promote_failure_modes_witness :
    promote regW "demand_forecast" "v9" 7 "bob" = .error .notFound ∧
    promote regW "demand_forecast" "v1" 7 "bob" = .error .alreadyPromoted :=
  ⟨(c6_promote_failure_modes regW "demand_forecast" "v9" 7 "bob").1 (by decide),
   (c6_promote_failure_modes regW "demand_forecast" "v1" 7 "bob").2.1
     ⟨1, "demand_forecast", "v1", "prod", some 1, some "alice"⟩ (by decide) rfl⟩

/- ===================================================================
   C1: at most one prod model per name
   =================================================================== -/

/-- The target of a successful lookup carries the looked-up key. -/
theorem find?_key_eq (reg : List MLModel) (name v : String) (m : MLModel)
    (hfind : reg.find? (fun x => x.model_name == name && x.version == v) = some m) :
    m.model_name = name ∧ m.version = v := by
  have h := List.find?_some hfind
  rw [Bool.and_eq_true, beq_iff_eq, beq_iff_eq] at h
  exact h

/-- After a successful promotion there is EXACTLY one prod model of
the promoted name: the two update passes turn the prod flag off for
every row of the name and on for precisely the target row. -/
theorem countProd_promote_ok (reg : List MLModel) (name v : String) (t : Nat) (u : String)
    (reg2 : List MLModel) (prev : String)
    (hid : (reg.map MLModel.id).Nodup)
    (hok : promote reg name v t u = .ok (reg2, prev)) :
    countProd reg2 name = 1 := by
  obtain ⟨m, hfind, hst, _, hreg2⟩ := (promote_ok_iff reg name v t u reg2 prev).mp hok
  have hmem : m ∈ reg := List.mem_of_find?_eq_some hfind
  have hname : m.model_name = name := (find?_key_eq reg name v m hfind).1
  subst hreg2
  rw [countProd, List.map_map, List.countP_map]
  have hpt : ∀ x ∈ reg,
      (((fun m2 : MLModel => m2.model_name == name && m2.status == "prod") ∘
        (promoteStamp m.id t u ∘ promoteArchive name)) x = true)
      ↔ ((fun x : MLModel => x.id == m.id) x = true) := by
    intro x hx
    simp only [Function.comp_apply, beq_iff_eq]
    by_cases hxm : x.id = m.id
    · have hxeq : x = m := List.inj_on_of_nodup_map hid hx hmem hxm
      subst hxeq
      have harch : promoteArchive name x = x := by
        unfold promoteArchive
        rw [if_neg]
        rintro ⟨_, h⟩
        exact hst h
      rw [harch]
      unfold promoteStamp
      rw [if_pos rfl]
      simp [hname]
    · have hidarch : (promoteArchive name x).id = x.id := (promoteArchive_fields name x).1
      have hstamp : promoteStamp m.id t u (promoteArchive name x) = promoteArchive name x := by
        unfold promoteStamp
        rw [if_neg]
        rw [hidarch]
        exact hxm
      rw [hstamp]
      unfold promoteArchive
      by_cases hc : x.model_name = name ∧ x.status = "prod"
      · rw [if_pos hc]
        simp [hxm]
      · rw [if_neg hc]
        constructor
        · intro h
          rw [Bool.and_eq_true, beq_iff_eq, beq_iff_eq] at h
          exact absurd h hc
        · intro h
          exact absurd h hxm
  rw [List.countP_congr hpt]
  have hcnt : reg.countP (fun x : MLModel => x.id == m.id)
      = List.count m.id (reg.map MLModel.id) := by
    rw [List.count, List.countP_map]
    rfl
  rw [hcnt]
  exact List.count_eq_one_of_mem hid (List.mem_map_of_mem MLModel.id hmem)

/-- One promotion request never lets the prod count of a name exceed
one: failures change nothing, successes leave exactly one. -/
theorem countProd_promoteStep_le (name : String) (reg : List MLModel) (op : PromoteOp)
    (hid : (reg.map MLModel.id).Nodup)
    (hinv : countProd reg name ≤ 1) :
    countProd (promoteStep name reg op) name ≤ 1 := by
  unfold promoteStep
  rcases hp : promote reg name op.version op.time op.user with e | pr
  · exact hinv
  · obtain ⟨reg2, prev⟩ := pr
    exact le_of_eq (countProd_promote_ok reg name op.version op.time op.user reg2 prev hid hp)

/-- Promotion rewrites statuses and stamps but never ids. -/
theorem promoteStep_map_id (name : String) (reg : List MLModel) (op : PromoteOp) :
    (promoteStep name reg op).map MLModel.id = reg.map MLModel.id := by
  unfold promoteStep
  rcases hp : promote reg name op.version op.time op.user with e | pr
  · rfl
  · obtain ⟨reg2, prev⟩ := pr
    obtain ⟨m, _, _, _, hreg2⟩ :=
      (promote_ok_iff reg name op.version op.time op.user reg2 prev).mp hp
    subst hreg2
    rw [List.map_map, List.map_map]
    apply List.map_congr_left
    intro x _
    simp only [Function.comp_apply]
    rw [(promoteStamp_fields m.id op.time op.user _).1, (promoteArchive_fields name x).1]

/-- C1: starting from a registry whose ids are unique (primary key),
whose (model_name, version) pairs are unique (uq_model_version) and
which has at most one prod model of the given name, any finite
sequence of promotions of that name leaves at most one prod model of
the name; moreover each successful promotion yields exactly one prod
model of the name and acts on the rows as claimed: the target row
becomes prod with promoted_at/promoted_by stamped (its previous
status being the one reported), every other previously-prod row of
the name becomes archived, and every remaining row is untouched. -/
theorem c1_promotion_invariant (reg : List MLModel) (name : String) (ops : List PromoteOp)
    (hid : (reg.map MLModel.id).Nodup)
    (hkey : (reg.map (fun m => (m.model_name, m.version))).Nodup)
    (hinv : countProd reg name ≤ 1) :
    countProd (runPromotes name reg ops) name ≤ 1 ∧
    (∀ v t u reg2 prev, promote reg name v t u = .ok (reg2, prev) →
      countProd reg2 name = 1 ∧
      reg2.length = reg.length ∧
      ∀ i (hi : i < reg.length) (hi2 : i < reg2.length),
        (reg[i].model_name = name → reg[i].version = v →
          reg2[i] = { reg[i] with
            status := "prod", promoted_at := some t, promoted_by := some u } ∧
          prev = reg[i].status) ∧
        (reg[i].model_name = name → reg[i].version ≠ v → reg[i].status = "prod" →
          reg2[i] = { reg[i] with status := "archived" }) ∧
        (reg[i].model_name ≠ name ∨ (reg[i].version ≠ v ∧ reg[i].status ≠ "prod") →
          reg2[i] = reg[i])) := by
  constructor
  · clear hkey
    induction ops generalizing reg with
    | nil => exact hinv
    | cons op rest ih =>
      have h1 : runPromotes name reg (op :: rest)
          = runPromotes name (promoteStep name reg op) rest := rfl
      rw [h1]
      exact ih (promoteStep name reg op)
        (by rw [promoteStep_map_id]; exact hid)
        (countProd_promoteStep_le name reg op hid hinv)
  · intro v t u reg2 prev hok
    obtain ⟨m, hfind, hst, hprev, hreg2⟩ := (promote_ok_iff reg name v t u reg2 prev).mp hok
    have hmem : m ∈ reg := List.mem_of_find?_eq_some hfind
    have hmkey := find?_key_eq reg name v m hfind
    refine ⟨countProd_promote_ok reg name v t u reg2 prev hid hok, ?_, ?_⟩
    · rw [hreg2]; simp
    · intro i hi hi2
      have hx2 : reg2[i] = promoteStamp m.id t u (promoteArchive name reg[i]) := by
        subst hreg2
        rw [List.getElem_map, List.getElem_map]
      refine ⟨?_, ?_, ?_⟩
      · intro hn hv
        have hxeq : reg[i] = m := by
          apply List.inj_on_of_nodup_map hkey (List.getElem_mem hi) hmem
          rw [hn, hv, hmkey.1, hmkey.2]
        have harch : promoteArchive name reg[i] = reg[i] := by
          unfold promoteArchive
          rw [if_neg]
          rintro ⟨_, h⟩
          rw [hxeq] at h
          exact hst h
        rw [hx2, harch]
        unfold promoteStamp
        rw [if_pos (by rw [hxeq])]
        exact ⟨rfl, by rw [hprev, hxeq]⟩
      · intro hn hv hp
        have hne : reg[i] ≠ m := by
          intro h
          rw [h, hmkey.2] at hv
          exact hv rfl
        have hidne : reg[i].id ≠ m.id := by
          intro h
          exact hne (List.inj_on_of_nodup_map hid (List.getElem_mem hi) hmem h)
        rw [hx2]
        have harch : promoteArchive name reg[i] = { reg[i] with status := "archived" } := by
          unfold promoteArchive
          rw [if_pos ⟨hn, hp⟩]
        rw [harch]
        unfold promoteStamp
        rw [if_neg hidne]
      · intro hc
        have hne : reg[i] ≠ m := by
          intro h
          rcases hc with hc | hc
          · rw [h, hmkey.1] at hc; exact hc rfl
          · rw [h, hmkey.2] at hc; exact hc.1 rfl
        have hidne : reg[i].id ≠ m.id := by
          intro h
          exact hne (List.inj_on_of_nodup_map hid (List.getElem_mem hi) hmem h)
        rw [hx2]
        have harch : promoteArchive name reg[i] = reg[i] := by
          unfold promoteArchive
          rw [if_neg]
          rintro ⟨h1, h2⟩
          rcases hc with hc | hc
          · exact hc h1
          · exact hc.2 h2
        rw [harch]
        unfold promoteStamp
        rw [if_neg hidne]

/-- C1 witness: in `regW` (ids and keys unique, one prod model)
promoting "v2" leaves at most one prod model of the name. -/
theorem c1_promotion_invariant_witness :
    countProd (runPromotes "demand_forecast" regW [⟨"v2", 5, "carol"⟩]) "demand_forecast" ≤ 1 :=
  (c1_promotion_invariant regW "demand_forecast" [⟨"v2", 5, "carol"⟩]
    (by decide) (by decide) (by decide)).1

/- ===================================================================
   C2: no future leakage in lag/rolling/trend features
   =================================================================== -/

/-- Splitting a filtered list at a member of the filtered sublist: the
filtered prefix is an initial segment, and the member sits right after
it. -/
theorem filter_take_of_getElem {α : Type} (p : α → Bool) (l : List α) (j : Nat)
    (hj : j < l.length) (hpj : p l[j] = true) :
    (l.filter p).take ((l.take j).filter p).length = (l.take j).filter p ∧
    (l.filter p)[((l.take j).filter p).length]? = some l[j] := by
  have hfl : l.filter p = (l.take j).filter p ++ l[j] :: (l.drop (j + 1)).filter p := by
    conv_lhs => rw [show l = l.take j ++ l[j] :: l.drop (j + 1) from by
      conv_lhs => rw [← List.take_append_drop j l, List.drop_eq_getElem_cons hj]]
    rw [List.filter_append, List.filter_cons_of_pos hpj]
  constructor
  · rw [hfl, List.take_left]
  · rw [hfl, List.getElem?_append_right (le_refl _)]
    simp

/-- In a strictly sorted list, the elements strictly below the key of
a member are exactly the members before it. -/
theorem sorted_filter_lt_eq_take {α : Type} (f : α → Int) (xs : List α) (d : Int)
    (hs : (xs.map f).Sorted (· < ·)) (i : Nat) (hi : i < xs.length) (hdi : f xs[i] = d) :
    xs.filter (fun o => decide (f o < d)) = xs.take i := by
  have hpw : List.Pairwise (fun a b => f a < f b) xs := List.pairwise_map.mp hs
  have hsplit : xs = xs.take i ++ xs[i] :: xs.drop (i + 1) := by
    conv_lhs => rw [← List.take_append_drop i xs, List.drop_eq_getElem_cons hi]
  rw [hsplit] at hpw
  obtain ⟨hpw1, hpw2, hcross⟩ := List.pairwise_append.mp hpw
  conv_lhs => rw [hsplit]
  rw [List.filter_append]
  have h1 : (xs.take i).filter (fun o => decide (f o < d)) = xs.take i := by
    rw [List.filter_eq_self]
    intro a ha
    have := hcross a ha xs[i] (List.mem_cons_self _ _)
    simp [hdi ▸ this]
  have h2 : (xs[i] :: xs.drop (i + 1)).filter (fun o => decide (f o < d)) = [] := by
    rw [List.filter_eq_nil_iff]
    intro a ha
    rcases List.mem_cons.mp ha with rfl | ha2
    · simp [hdi]
    · have := (List.pairwise_cons.mp hpw2).1 a ha2
      simp only [decide_eq_true_eq]
      rw [hdi] at this
      omega
  rw [h1, h2, List.append_nil]

/-- `shift(k)` (k ≥ 1) at position `i` reads only positions before
`i`. -/
theorem shiftAt_congr (qs1 qs2 : List Rat) (k i : Nat) (hk : 1 ≤ k)
    (h : qs1.take i = qs2.take i) : shiftAt qs1 k i = shiftAt qs2 k i := by
  unfold shiftAt
  by_cases hki : k ≤ i
  · rw [if_pos hki, if_pos hki]
    have hlt : i - k < i := Nat.sub_lt (lt_of_lt_of_le hk hki) hk
    have h1 : qs1[i - k]? = (qs1.take i)[i - k]? := by
      rw [List.getElem?_take, if_pos hlt]
    have h2 : qs2[i - k]? = (qs2.take i)[i - k]? := by
      rw [List.getElem?_take, if_pos hlt]
    rw [h1, h2, h]
  · rw [if_neg hki, if_neg hki]

/-- The shifted rolling window at position `i` reads only positions
before `i`. -/
theorem backWindow_congr (qs1 qs2 : List Rat) (w i : Nat)
    (h : qs1.take i = qs2.take i) : backWindow qs1 w i = backWindow qs2 w i := by
  unfold backWindow
  rw [h]

theorem rollMeanAt_congr (qs1 qs2 : List Rat) (w i : Nat)
    (h : qs1.take i = qs2.take i) : rollMeanAt qs1 w i = rollMeanAt qs2 w i := by
  unfold rollMeanAt
  rw [backWindow_congr qs1 qs2 w i h]

/-- Every engineered column at position `i` is a function of the first
`i` entries of the group quantity series alone: the no-leakage core. -/
theorem featValsAt_congr (qs1 qs2 : List Rat) (i : Nat)
    (h : qs1.take i = qs2.take i) : featValsAt qs1 i = featValsAt qs2 i := by
  have hbw : ∀ w, backWindow qs1 w i = backWindow qs2 w i :=
    fun w => backWindow_congr qs1 qs2 w i h
  have hsh : ∀ k, 1 ≤ k → shiftAt qs1 k i = shiftAt qs2 k i :=
    fun k hk => shiftAt_congr qs1 qs2 k i hk h
  unfold featValsAt rollStdAt rollMinAt rollMaxAt wowChangeAt wowPctAt shortLongAt
  rw [hsh 1 (by omega), hsh 7 (by omega), hsh 8 (by omega), hsh 14 (by omega),
    hsh 28 (by omega), hbw 7, hbw 14, hbw 28,
    rollMeanAt_congr qs1 qs2 7 i h, rollMeanAt_congr qs1 qs2 14 i h,
    rollMeanAt_congr qs1 qs2 28 i h]

/-- Every engineered row is the feature row of some input position. -/
theorem mem_engineer_features (rows : List Obs) (r : FeatRow)
    (hr : r ∈ engineer_features rows) :
    ∃ j, ∃ (hj : j < rows.length), r = featRowAt rows j rows[j] ∧ r.vals.complete = true := by
  unfold engineer_features at hr
  obtain ⟨hmem, hcomp⟩ := List.mem_filter.mp hr
  obtain ⟨j, hjr, heq⟩ := List.mem_map.mp hmem
  have hj : j < rows.length := List.mem_range.mp hjr
  refine ⟨j, hj, ?_, hcomp⟩
  rw [← heq, List.getD_eq_getElem rows obsDefault hj]

/-- The feature columns of any engineered row of group (p, l) at date
`d` equal `featValsAt` evaluated, at the index given by the number of
group observations dated strictly before `d`, on a series whose first
entries are exactly the quantities of those observations. -/
theorem featRow_vals_canonical (rows : List Obs) (r : FeatRow) (p l : Nat) (d : Int)
    (hr : r ∈ engineer_features rows) (hp : r.product = p) (hl : r.location = l)
    (hd : r.date = d)
    (hsort : ((groupRows rows p l).map Obs.date).Sorted (· < ·)) :
    ∃ qs : List Rat,
      r.vals = featValsAt qs
        ((groupRows rows p l).filter (fun o => decide (o.date < d))).length ∧
      qs.take ((groupRows rows p l).filter (fun o => decide (o.date < d))).length
        = ((groupRows rows p l).filter (fun o => decide (o.date < d))).map Obs.qty := by
  obtain ⟨j, hj, hreq, _⟩ := mem_engineer_features rows r hr
  have hop : rows[j].product = p := by rw [hreq] at hp; exact hp
  have hol : rows[j].location = l := by rw [hreq] at hl; exact hl
  have hod : rows[j].date = d := by rw [hreq] at hd; exact hd
  have hpj : (fun o : Obs => o.product == p && o.location == l) rows[j] = true := by
    simp [hop, hol]
  have hft := filter_take_of_getElem (fun o : Obs => o.product == p && o.location == l)
    rows j hj hpj
  set P := fun o : Obs => o.product == p && o.location == l with hP
  set gi := ((rows.take j).filter P).length with hgi
  have hlt : gi < (rows.filter P).length := by
    rcases List.getElem?_eq_some_iff.mp hft.2 with ⟨hw, _⟩
    exact hw
  have hgo : (rows.filter P)[gi] = rows[j] := by
    rcases List.getElem?_eq_some_iff.mp hft.2 with ⟨hw, hv⟩
    exact hv
  have hT3 : (rows.filter P).filter (fun o => decide (o.date < d))
      = (rows.filter P).take gi := by
    apply sorted_filter_lt_eq_take Obs.date (rows.filter P) d hsort gi hlt
    rw [hgo, hod]
  have hidx : ((groupRows rows p l).filter (fun o => decide (o.date < d))).length = gi := by
    show ((rows.filter P).filter (fun o => decide (o.date < d))).length = gi
    rw [hT3, List.length_take]
    omega
  refine ⟨(rows.filter P).map Obs.qty, ?_, ?_⟩
  · rw [hreq]
    show featValsAt ((groupRows rows rows[j].product rows[j].location).map Obs.qty)
        (groupRows (rows.take j) rows[j].product rows[j].location).length
      = featValsAt ((rows.filter P).map Obs.qty)
        ((groupRows rows p l).filter (fun o => decide (o.date < d))).length
    rw [hidx, hop, hol]
    rfl
  · rw [hidx]
    show ((rows.filter P).map Obs.qty).take gi
      = ((rows.filter P).filter (fun o => decide (o.date < d))).map Obs.qty
    rw [hT3, ← List.map_take]

/-- C2: every lag feature (qty_lag_1d/7d/14d/28d and the same-day-of-
week variants) and every rolling statistic (and the trend columns
derived from them) of an engineered row of group (p, l) at date `d`
depends only on the group's observations dated strictly before `d`:
two inputs whose (p, l) series are strictly increasing in date and
agree on the observations before `d` — e.g. the second obtained from
the first by appending or changing observations at dates ≥ `d`, or
changing other groups — give identical feature values to their rows
at date `d`. -/
theorem c2_no_future_leakage (s t : List Obs) (p l : Nat) (d : Int)
    (rs rt : FeatRow)
    (hs : ((groupRows s p l).map Obs.date).Sorted (· < ·))
    (ht : ((groupRows t p l).map Obs.date).Sorted (· < ·))
    (hagree : (groupRows s p l).filter (fun o => decide (o.date < d))
        = (groupRows t p l).filter (fun o => decide (o.date < d)))
    (hrs : rs ∈ engineer_features s) (hrt : rt ∈ engineer_features t)
    (hps : rs.product = p) (hls : rs.location = l) (hds : rs.date = d)
    (hpt : rt.product = p) (hlt : rt.location = l) (hdt : rt.date = d) :
    rs.vals = rt.vals := by
  obtain ⟨qs1, he1, htk1⟩ := featRow_vals_canonical s rs p l d hrs hps hls hds hs
  obtain ⟨qs2, he2, htk2⟩ := featRow_vals_canonical t rt p l d hrt hpt hlt hdt ht
  rw [he1, he2, ← hagree]
  apply featValsAt_congr
  rw [← hagree] at htk2
  exact htk1.trans htk2.symm

/-- C2 witness: in the 29-day series `obsW` and its extension `obsW2`
by one far-future observation, the engineered rows at date 28 carry
identical feature values. -/
theorem c2_no_future_leakage_witness :
    (featRowAt obsW 28 (obsW.getD 28 obsDefault)).vals
      = (featRowAt obsW2 28 (obsW2.getD 28 obsDefault)).vals :=
  c2_no_future_leakage obsW obsW2 1 1 28
    (featRowAt obsW 28 (obsW.getD 28 obsDefault))
    (featRowAt obsW2 28 (obsW2.getD 28 obsDefault))
    (by decide) (by decide) (by decide)
    (List.mem_filter.mpr ⟨List.mem_map.mpr ⟨28, List.mem_range.mpr (by decide), rfl⟩, by decide⟩)
    (List.mem_filter.mpr ⟨List.mem_map.mpr ⟨28, List.mem_range.mpr (by decide), rfl⟩, by decide⟩)
    (by decide) (by decide) (by decide) (by decide) (by decide) (by decide)
